import Mathlib

/-!
# Shallow embedding of `pennylane/templates/subroutines/qpe.py`

The source file defines a single template function `QuantumPhaseEstimation
(unitary, target_wires, estimation_wires)` that validates that the two wire
registers are disjoint, builds a ladder of unitary powers by repeated
squaring, and emits the QPE gate sequence: one Hadamard and one controlled
unitary power per estimation wire, followed by one inverse quantum Fourier
transform over the estimation register.

The unitary is duck-typed in the source (any object supporting `@`), so the
embedding is polymorphic over a type `α` with multiplication.  Wires are
opaque identifiers with decidable equality; we use `Nat`.  The pythonic
side-effecting emission (`qml.Hadamard(wire)` etc. recording into an ambient
context) is modelled by returning the ordered list of emitted operations,
and the raised `QuantumFunctionError` by an `Except` error result.
-/

/-- A wire (qubit index): an opaque identifier.  The source wraps wire labels
in `Wires`; only equality is used, so `Nat` suffices. -/
abbrev Wire := Nat

/-- The error raised by the source on overlapping registers
(`qml.QuantumFunctionError`, the spec calls it `ConfigurationError`),
carrying its message string. -/
inductive QuantumFunctionError : Type where
  | mk (msg : String) : QuantumFunctionError
deriving DecidableEq, Repr

/-- An emitted operation: the source emits `qml.Hadamard(wire)`,
`qml.ControlledQubitUnitary(u, control_wires=wire, wires=target_wires)`,
and `qml.QFT(wires=estimation_wires).inv()`. -/
inductive Op (α : Type) : Type where
  | Hadamard (wire : Wire) : Op α
  | ControlledQubitUnitary (u : α) (control : Wire) (targets : List Wire) : Op α
  | QFTInv (wires : List Wire) : Op α
deriving DecidableEq, Repr

/-- `Wires.shared_wires([target_wires, estimation_wires])`: the wires of the
first register that also occur in the second. -/
def shared_wires (ws1 ws2 : List Wire) : List Wire :=
  ws1.filter (fun w => decide (w ∈ ws2))

/-- One iteration of the ladder loop body:
`new_power = unitary_powers[0] @ unitary_powers[0];
unitary_powers.insert(0, new_power)`.  The list is never empty when the loop
runs (it starts as `[unitary]`); the `[]` branch is unreachable. -/
def squareFront {α : Type} [Mul α] : List α → List α
  | [] => []
  | x :: xs => (x * x) :: x :: xs

/-- The unitary power ladder: `unitary_powers = [unitary]` followed by
`len(estimation_wires) - 1` iterations of front-squaring.  Python ranges over
a negative bound are empty, matching `Nat` subtraction. -/
def unitary_powers {α : Type} [Mul α] (unitary : α) (n : Nat) : List α :=
  squareFront^[n - 1] [unitary]

/-- Ladder construction instrumented with a matrix-multiplication counter:
each loop iteration performs exactly one `@` product. -/
def squareFrontCounted {α : Type} [Mul α] : List α × Nat → List α × Nat
  | ([], k) => ([], k)
  | (x :: xs, k) => ((x * x) :: x :: xs, k + 1)

/-- The ladder together with the number of matrix multiplications performed. -/
def unitary_powersCounted {α : Type} [Mul α] (unitary : α) (n : Nat) :
    List α × Nat :=
  squareFrontCounted^[n - 1] ([unitary], 0)

/-- The operation pair emitted for one `(wire, u)` element of
`zip(estimation_wires, unitary_powers)`: a Hadamard on the wire, then the
controlled unitary with that wire as control and the target register as
targets. -/
def emitPair {α : Type} (target_wires : List Wire) (p : Wire × α) :
    List (Op α) :=
  [Op.Hadamard p.1, Op.ControlledQubitUnitary p.2 p.1 target_wires]

/-- `QuantumPhaseEstimation(unitary, target_wires, estimation_wires)`:
validates register disjointness, builds the power ladder, and emits the
ordered gate sequence. -/
def QuantumPhaseEstimation {α : Type} [Mul α] (unitary : α)
    (target_wires estimation_wires : List Wire) :
    Except QuantumFunctionError (List (Op α)) :=
  if (shared_wires target_wires estimation_wires).length ≠ 0 then
    Except.error (QuantumFunctionError.mk
      "The target wires and estimation wires must be different")
  else
    let powers := unitary_powers unitary estimation_wires.length
    Except.ok
      (((estimation_wires.zip powers).map (emitPair target_wires)).flatten
        ++ [Op.QFTInv estimation_wires])

/-- The error value raised on overlapping registers. -/
def overlapError : QuantumFunctionError :=
  QuantumFunctionError.mk
    "The target wires and estimation wires must be different"

/-- Extracts the data of a controlled-unitary operation, if the operation is
one: (matrix, control wire, target wires). -/
def asControlled {α : Type} : Op α → Option (α × Wire × List Wire)
  | Op.ControlledQubitUnitary u c ts => some (u, c, ts)
  | _ => none

/-- The controlled-unitary operations of a sequence, in emission order, each
as (matrix, control wire, target wires). -/
def controlledOps {α : Type} (ops : List (Op α)) : List (α × Wire × List Wire) :=
  ops.filterMap asControlled

/-! ## Ladder lemmas -/

lemma squareFront_cons {α : Type} [Mul α] (x : α) (xs : List α) :
    squareFront (x :: xs) = (x * x) :: x :: xs := rfl

lemma squareFront_iterate_spec {α : Type} [Mul α] (u : α) (k : Nat) :
    (squareFront^[k] [u]).length = k + 1 ∧
    squareFrontCounted^[k] ([u], 0) = (squareFront^[k] [u], k) := by
  induction k with
  | zero => simp
  | succ k ih =>
    obtain ⟨h1, h2⟩ := ih
    obtain ⟨y, ys, hys⟩ : ∃ y ys, squareFront^[k] [u] = y :: ys := by
      cases h : squareFront^[k] [u] with
      | nil => rw [h] at h1; simp at h1
      | cons a as => exact ⟨a, as, rfl⟩
    refine ⟨?_, ?_⟩
    · rw [Function.iterate_succ_apply', hys, squareFront_cons]
      rw [hys] at h1
      simp only [List.length_cons] at h1 ⊢
      omega
    · rw [Function.iterate_succ_apply', Function.iterate_succ_apply', h2, hys,
        squareFront_cons]
      rfl

lemma unitary_powers_length {α : Type} [Mul α] (u : α) (n : Nat) :
    (unitary_powers u n).length = max n 1 := by
  have h := (squareFront_iterate_spec u (n - 1)).1
  unfold unitary_powers
  rw [h]
  omega

lemma unitary_powersCounted_spec {α : Type} [Mul α] (u : α) (n : Nat) :
    unitary_powersCounted u n = (unitary_powers u n, n - 1) :=
  (squareFront_iterate_spec u (n - 1)).2

lemma squareFront_iterate_powers {α : Type} [Monoid α] (u : α) (k : Nat) :
    squareFront^[k] [u] = (List.range (k + 1)).map (fun i => u ^ 2 ^ (k - i)) := by
  induction k with
  | zero => simp
  | succ k ih =>
    have hhead : (List.range (k + 1)).map (fun i => u ^ 2 ^ (k - i)) =
        u ^ 2 ^ k :: ((List.range k).map (fun i => u ^ 2 ^ (k - (i + 1)))) := by
      rw [List.range_succ_eq_map, List.map_cons, List.map_map]
      simp [Function.comp_def]
    have hR : (List.range (k + 1 + 1)).map (fun i => u ^ 2 ^ (k + 1 - i)) =
        u ^ 2 ^ (k + 1) :: ((List.range (k + 1)).map (fun i => u ^ 2 ^ (k - i))) := by
      rw [List.range_succ_eq_map, List.map_cons, List.map_map]
      congr 1
      refine List.map_congr_left ?_
      intro i _
      simp only [Function.comp_apply]
      have hsub : k + 1 - (i + 1) = k - i := by omega
      rw [hsub]
    rw [Function.iterate_succ_apply', ih, hhead, squareFront_cons, ← hhead, hR]
    congr 1
    rw [← pow_add, Nat.two_pow_succ]

lemma unitary_powers_eq_map {α : Type} [Monoid α] (u : α) (n : Nat) (hn : 1 ≤ n) :
    unitary_powers u n = (List.range n).map (fun i => u ^ 2 ^ (n - 1 - i)) := by
  unfold unitary_powers
  rw [squareFront_iterate_powers]
  have h : n - 1 + 1 = n := by omega
  rw [h]

lemma unitary_powers_getElem? {α : Type} [Monoid α] (u : α) (n i : Nat)
    (hn : 1 ≤ n) (hi : i < n) :
    (unitary_powers u n)[i]? = some (u ^ 2 ^ (n - 1 - i)) := by
  rw [unitary_powers_eq_map u n hn]
  simp [List.getElem?_range hi]

lemma zip_powers_length {α : Type} [Mul α] (u : α) (e : List Wire) :
    (e.zip (unitary_powers u e.length)).length = e.length := by
  rw [List.length_zip, unitary_powers_length]
  omega

lemma zip_powers_getElem? {α : Type} [Monoid α] (u : α) (e : List Wire) (i : Nat)
    (hi : i < e.length) :
    (e.zip (unitary_powers u e.length))[i]? =
      some (e[i], u ^ 2 ^ (e.length - 1 - i)) := by
  rw [List.getElem?_zip_eq_some]
  exact ⟨List.getElem?_eq_getElem hi,
    unitary_powers_getElem? u e.length i (by omega) hi⟩

/-! ## Emission lemmas -/

lemma flatten_pairs_length {β γ : Type} (f g : β → γ) (l : List β) :
    ((l.map (fun x => [f x, g x])).flatten).length = 2 * l.length := by
  induction l with
  | nil => rfl
  | cons x xs ih =>
    simp only [List.map_cons, List.flatten_cons, List.length_append,
      List.length_cons, List.length_nil] at ih ⊢
    omega

lemma flatten_pairs_getElem? {β γ : Type} (f g : β → γ) (l : List β) :
    ∀ (i : Nat) (b : β), l[i]? = some b →
      ((l.map (fun x => [f x, g x])).flatten)[2 * i]? = some (f b) ∧
      ((l.map (fun x => [f x, g x])).flatten)[2 * i + 1]? = some (g b) := by
  induction l with
  | nil => intro i b hb; simp at hb
  | cons x xs ih =>
    intro i b hb
    cases i with
    | zero =>
      rw [List.getElem?_cons_zero] at hb
      obtain rfl := Option.some.inj hb
      simp
    | succ j =>
      rw [List.getElem?_cons_succ] at hb
      have h := ih j b hb
      simp only [List.map_cons, List.flatten_cons, List.cons_append,
        List.nil_append]
      rw [show 2 * (j + 1) = 2 * j + 1 + 1 from by omega]
      simp only [List.getElem?_cons_succ]
      exact h

lemma emit_flatten_length {α : Type} (t : List Wire) (l : List (Wire × α)) :
    ((l.map (emitPair t)).flatten).length = 2 * l.length :=
  flatten_pairs_length (fun b : Wire × α => Op.Hadamard b.1)
    (fun b : Wire × α => Op.ControlledQubitUnitary b.2 b.1 t) l

lemma emit_flatten_getElem? {α : Type} (t : List Wire) (l : List (Wire × α))
    (i : Nat) (b : Wire × α) (hb : l[i]? = some b) :
    ((l.map (emitPair t)).flatten)[2 * i]? = some (Op.Hadamard b.1) ∧
    ((l.map (emitPair t)).flatten)[2 * i + 1]? =
      some (Op.ControlledQubitUnitary b.2 b.1 t) :=
  flatten_pairs_getElem? (fun b : Wire × α => Op.Hadamard b.1)
    (fun b : Wire × α => Op.ControlledQubitUnitary b.2 b.1 t) l i b hb

lemma controlledOps_append {α : Type} (l1 l2 : List (Op α)) :
    controlledOps (l1 ++ l2) = controlledOps l1 ++ controlledOps l2 :=
  List.filterMap_append l1 l2 asControlled

lemma controlledOps_emitPairs {α : Type} (t : List Wire) (l : List (Wire × α)) :
    controlledOps ((l.map (emitPair t)).flatten) =
      l.map (fun p => (p.2, p.1, t)) := by
  induction l with
  | nil => rfl
  | cons x xs ih =>
    simp only [List.map_cons, List.flatten_cons]
    rw [controlledOps_append, ih]
    rfl

/-! ## Build equations -/

lemma shared_wires_iff (t e : List Wire) :
    (shared_wires t e).length ≠ 0 ↔ ∃ w, w ∈ t ∧ w ∈ e := by
  rw [Ne, List.length_eq_zero]
  simp [shared_wires, List.filter_eq_nil_iff]

lemma shared_wires_eq_nil {t e : List Wire} (h : ¬ ∃ w, w ∈ t ∧ w ∈ e) :
    shared_wires t e = [] := by
  by_contra hne
  have hlen : (shared_wires t e).length ≠ 0 := by
    simpa [List.length_eq_zero] using hne
  exact h ((shared_wires_iff t e).mp hlen)

lemma QuantumPhaseEstimation_ok {α : Type} [Mul α] (u : α) (t e : List Wire)
    (hd : shared_wires t e = []) :
    QuantumPhaseEstimation u t e =
      Except.ok
        (((e.zip (unitary_powers u e.length)).map (emitPair t)).flatten
          ++ [Op.QFTInv e]) := by
  unfold QuantumPhaseEstimation
  rw [hd]
  simp

lemma QuantumPhaseEstimation_error {α : Type} [Mul α] (u : α) (t e : List Wire)
    (ho : ∃ w, w ∈ t ∧ w ∈ e) :
    QuantumPhaseEstimation u t e = Except.error overlapError := by
  unfold QuantumPhaseEstimation
  rw [if_pos ((shared_wires_iff t e).mpr ho)]
  rfl

example : unitary_powers (2 : Nat) 3 = [16, 4, 2] := by decide
example : unitary_powers (2 : Nat) 0 = [2] := by decide
example : unitary_powersCounted (2 : Nat) 5 = ([65536, 256, 16, 4, 2], 4) := by decide
example :
    QuantumPhaseEstimation (2 : Nat) [0] [1, 2] =
      Except.ok [Op.Hadamard 1, Op.ControlledQubitUnitary 4 1 [0],
        Op.Hadamard 2, Op.ControlledQubitUnitary 2 2 [0],
        Op.QFTInv [1, 2]] := by rfl
example :
    QuantumPhaseEstimation (2 : Nat) [0, 1] [1, 2] = Except.error overlapError := by
  rfl

/-! ## Claims -/

/-- Claim C1: for every unitary, every non-empty target register, and every
non-empty estimation register disjoint from it, the i-th emitted
controlled-unitary operation applies the unitary raised to the power
2 ^ (n - 1 - i), controlled on the i-th estimation wire, with the full target
register as targets. -/
theorem qpe_controlled_power_exponents {α : Type} [Monoid α] (u : α)
    (t e : List Wire) (ht : t ≠ []) (hd : shared_wires t e = [])
    (i : Nat) (hi : i < e.length) :
    ∃ ops, QuantumPhaseEstimation u t e = Except.ok ops ∧
      (controlledOps ops)[i]? =
        some (u ^ 2 ^ (e.length - 1 - i), e[i], t) := by
  refine ⟨_, QuantumPhaseEstimation_ok u t e hd, ?_⟩
  rw [controlledOps_append, controlledOps_emitPairs,
    show controlledOps [Op.QFTInv e] = ([] : List (α × Wire × List Wire))
      from rfl,
    List.append_nil, List.getElem?_map, zip_powers_getElem? u e i hi]
  rfl

/-- Witness for C1 at the unitary 2 in the multiplicative monoid of natural
numbers, target register [0], estimation register [1, 2], index 0: the first
controlled operation carries 2 ^ 2 ^ 1 = 4 on control wire 1. -/
theorem qpe_controlled_power_exponents_witness :
    ∃ ops, QuantumPhaseEstimation (2 : Nat) [0] [1, 2] = Except.ok ops ∧
      (controlledOps ops)[0]? = some (4, 1, [0]) := by
  have h := qpe_controlled_power_exponents (2 : Nat) [0] [1, 2]
    (by decide) rfl 0 (by decide)
  simpa using h

/-- Claim C2: the build fails with the overlap error exactly when the two
registers share a wire; the check involves only the registers (the outcome is
independent of the unitary, i.e. it happens before any matrix computation),
and for disjoint registers validation passes with an ok result. -/
theorem qpe_overlap_check {α : Type} [Mul α] (u v : α) (t e : List Wire) :
    (QuantumPhaseEstimation u t e = Except.error overlapError ↔
      ∃ w, w ∈ t ∧ w ∈ e) ∧
    ((∃ ops, QuantumPhaseEstimation u t e = Except.ok ops) ↔
      ¬ ∃ w, w ∈ t ∧ w ∈ e) ∧
    (QuantumPhaseEstimation u t e = Except.error overlapError ↔
      QuantumPhaseEstimation v t e = Except.error overlapError) := by
  by_cases ho : ∃ w, w ∈ t ∧ w ∈ e
  · have hu := QuantumPhaseEstimation_error u t e ho
    have hv := QuantumPhaseEstimation_error v t e ho
    refine ⟨⟨fun _ => ho, fun _ => hu⟩, ⟨?_, fun h => absurd ho h⟩,
      ⟨fun _ => hv, fun _ => hu⟩⟩
    rintro ⟨ops, hops⟩
    rw [hu] at hops
    exact Except.noConfusion hops
  · have hd := shared_wires_eq_nil ho
    have hu := QuantumPhaseEstimation_ok u t e hd
    have hv := QuantumPhaseEstimation_ok v t e hd
    refine ⟨⟨fun h => ?_, fun h => absurd h ho⟩,
      ⟨fun _ => ho, fun _ => ⟨_, hu⟩⟩, ⟨fun h => ?_, fun h => ?_⟩⟩
    · rw [hu] at h
      exact Except.noConfusion h
    · rw [hu] at h
      exact Except.noConfusion h
    · rw [hv] at h
      exact Except.noConfusion h

/-- Claim C3: for disjoint registers with n = |estimation| ≥ 1, the emitted
sequence has length 2n + 1 and consists of, for each estimation wire in
order, a Hadamard on that wire immediately followed by the controlled
application of its paired power with that wire as the single control and the
whole target register as targets, closed by one inverse Fourier transform
over the estimation register in the supplied order. -/
theorem qpe_emission_sequence {α : Type} [Monoid α] (u : α) (t e : List Wire)
    (hd : shared_wires t e = []) (hn : 1 ≤ e.length) :
    ∃ ops, QuantumPhaseEstimation u t e = Except.ok ops ∧
      ops.length = 2 * e.length + 1 ∧
      (∀ i, (hi : i < e.length) →
        ops[2 * i]? = some (Op.Hadamard e[i]) ∧
        ops[2 * i + 1]? =
          some (Op.ControlledQubitUnitary
            (u ^ 2 ^ (e.length - 1 - i)) e[i] t)) ∧
      ops[2 * e.length]? = some (Op.QFTInv e) := by
  refine ⟨_, QuantumPhaseEstimation_ok u t e hd, ?_, ?_, ?_⟩
  · rw [List.length_append, emit_flatten_length, zip_powers_length]
    rfl
  · intro i hi
    have hz := zip_powers_getElem? u e i hi
    have h := emit_flatten_getElem? t (e.zip (unitary_powers u e.length)) i
      (e[i], u ^ 2 ^ (e.length - 1 - i)) hz
    have hb1 : 2 * i <
        ((e.zip (unitary_powers u e.length)).map (emitPair t)).flatten.length := by
      rw [emit_flatten_length, zip_powers_length]
      omega
    have hb2 : 2 * i + 1 <
        ((e.zip (unitary_powers u e.length)).map (emitPair t)).flatten.length := by
      rw [emit_flatten_length, zip_powers_length]
      omega
    exact ⟨by rw [List.getElem?_append_left hb1]; exact h.1,
      by rw [List.getElem?_append_left hb2]; exact h.2⟩
  · have hlen :
        ((e.zip (unitary_powers u e.length)).map (emitPair t)).flatten.length =
          2 * e.length := by
      rw [emit_flatten_length, zip_powers_length]
    rw [List.getElem?_append_right hlen.le, hlen, Nat.sub_self]
    rfl

/-- Witness for C3 at the unitary 2 in the multiplicative monoid of natural
numbers, target register [0], estimation register [1, 2]. -/
theorem qpe_emission_sequence_witness :
    ∃ ops, QuantumPhaseEstimation (2 : Nat) [0] [1, 2] = Except.ok ops ∧
      ops.length = 2 * [1, 2].length + 1 ∧
      (∀ i, (hi : i < [1, 2].length) →
        ops[2 * i]? = some (Op.Hadamard ([1, 2] : List Wire)[i]) ∧
        ops[2 * i + 1]? =
          some (Op.ControlledQubitUnitary
            ((2 : Nat) ^ 2 ^ ([1, 2].length - 1 - i))
            (([1, 2] : List Wire)[i]) [0])) ∧
      ops[2 * [1, 2].length]? = some (Op.QFTInv [1, 2]) :=
  qpe_emission_sequence (2 : Nat) [0] [1, 2] rfl (by decide)

/-- Claim C4, counterexample: for an empty estimation register (n = 0) the
power ladder computed inside the build does not have n = 0 entries — it
starts as the one-element list holding the unsquared unitary. -/
theorem qpe_ladder_length_counterexample :
    (unitary_powers (2 : Nat) (List.length ([] : List Wire))).length ≠
      List.length ([] : List Wire) := by
  decide

/-- Claim C4, amended: the power ladder has exactly max n 1 entries: exactly
n entries for every estimation register of size n ≥ 1, and exactly one entry
(the unsquared unitary) when n = 0. -/
theorem qpe_ladder_length_amended {α : Type} [Mul α] (u : α) (n : Nat) :
    (unitary_powers u n).length = max n 1 :=
  unitary_powers_length u n

/-- Claim C6: all validation is decided up front — the build either fails
with the overlap error and emits nothing, or returns the complete sequence of
2n + 1 operations; no partial sequence ever escapes. -/
theorem qpe_all_or_nothing {α : Type} [Mul α] (u : α) (t e : List Wire) :
    QuantumPhaseEstimation u t e = Except.error overlapError ∨
    ∃ ops, QuantumPhaseEstimation u t e = Except.ok ops ∧
      ops.length = 2 * e.length + 1 := by
  by_cases ho : ∃ w, w ∈ t ∧ w ∈ e
  · exact Or.inl (QuantumPhaseEstimation_error u t e ho)
  · refine Or.inr ⟨_, QuantumPhaseEstimation_ok u t e (shared_wires_eq_nil ho), ?_⟩
    rw [List.length_append, emit_flatten_length, zip_powers_length]
    rfl

/-- Claim C7: building the power ladder for an estimation register of size
n ≥ 1 performs exactly n - 1 matrix multiplications (one per loop iteration
of the repeated squaring), and the counted construction computes the same
ladder as the uncounted one. -/
theorem qpe_squaring_count {α : Type} [Mul α] (u : α) (n : Nat) (hn : 1 ≤ n) :
    (unitary_powersCounted u n).2 = n - 1 ∧
    (unitary_powersCounted u n).1 = unitary_powers u n := by
  rw [unitary_powersCounted_spec]
  exact ⟨rfl, rfl⟩

/-- Witness for C7 at the unitary 2 in the multiplicative monoid of natural
numbers and n = 5: exactly 4 multiplications. -/
theorem qpe_squaring_count_witness :
    (unitary_powersCounted (2 : Nat) 5).2 = 5 - 1 ∧
    (unitary_powersCounted (2 : Nat) 5).1 = unitary_powers (2 : Nat) 5 :=
  qpe_squaring_count (2 : Nat) 5 (by decide)

/-- Claim C8: if the supplied unitary is the identity, every emitted
controlled-power operation carries the identity, for every estimation
register of size n ≥ 1 disjoint from the target register. -/
theorem qpe_identity_unitary {α : Type} [Monoid α] (t e : List Wire)
    (hd : shared_wires t e = []) (hn : 1 ≤ e.length) :
    ∃ ops, QuantumPhaseEstimation (1 : α) t e = Except.ok ops ∧
      ∀ p ∈ controlledOps ops, p.1 = 1 := by
  refine ⟨_, QuantumPhaseEstimation_ok 1 t e hd, ?_⟩
  intro p hp
  rw [controlledOps_append, controlledOps_emitPairs,
    show controlledOps [Op.QFTInv e] = ([] : List (α × Wire × List Wire))
      from rfl,
    List.append_nil] at hp
  obtain ⟨q, hq, hpq⟩ := List.mem_map.mp hp
  obtain ⟨w, v⟩ := q
  obtain rfl := hpq
  have hv : v ∈ unitary_powers (1 : α) e.length := (List.of_mem_zip hq).2
  rw [unitary_powers_eq_map (1 : α) e.length hn] at hv
  obtain ⟨i, _, hfi⟩ := List.mem_map.mp hv
  show v = 1
  rw [← hfi]
  exact one_pow _

/-- Witness for C8 in the multiplicative monoid of natural numbers with
target register [0] and estimation register [1, 2]. -/
theorem qpe_identity_unitary_witness :
    ∃ ops, QuantumPhaseEstimation (1 : Nat) [0] [1, 2] = Except.ok ops ∧
      ∀ p ∈ controlledOps ops, p.1 = 1 :=
  qpe_identity_unitary [0] [1, 2] rfl (by decide)

/-- Claim C9: the build is a deterministic pure function of its three inputs:
equal unitary, equal target register, and equal estimation register give
identical emitted sequences (the embedding is a pure function, so there is no
state retained across calls). -/
theorem qpe_deterministic {α : Type} [Mul α] (u1 u2 : α)
    (t1 t2 e1 e2 : List Wire) (hu : u1 = u2) (ht : t1 = t2) (he : e1 = e2) :
    QuantumPhaseEstimation u1 t1 e1 = QuantumPhaseEstimation u2 t2 e2 := by
  subst hu
  subst ht
  subst he
  rfl

/-- Witness for C9 at concrete equal inputs. -/
theorem qpe_deterministic_witness :
    QuantumPhaseEstimation (2 : Nat) [0] [1, 2] =
      QuantumPhaseEstimation (2 : Nat) [0] [1, 2] :=
  qpe_deterministic (2 : Nat) (2 : Nat) [0] [0] [1, 2] [1, 2] rfl rfl rfl

/-- Claim C10: for an empty estimation register the build raises no error,
the ladder still holds exactly one entry (the unsquared unitary), and the
only emitted operation is the inverse Fourier transform over the empty
estimation register. -/
theorem qpe_empty_estimation {α : Type} [Mul α] (u : α) (t : List Wire) :
    QuantumPhaseEstimation u t [] = Except.ok [Op.QFTInv []] ∧
    unitary_powers u 0 = [u] := by
  refine ⟨?_, rfl⟩
  have hd : shared_wires t [] = [] := by
    simp [shared_wires]
  rw [QuantumPhaseEstimation_ok u t [] hd]
  rfl
